import Mathlib

/-!
Verification development for the commerce-sdk repository.

Part I models the response caching subsystem (`CacheManagerKeyv`-equivalent:
cache key policy, freshness evaluation, `put`/`match` orchestration including
the 304 merge and the HEAD/GET symmetry rule).  The implementation module
`packages/core/src/base/cacheManagerKeyv.ts` is not part of the analysed
sources (only its test file is), so the operations are modelled from the
specification, §4.1–4.3 and §7; each such definition carries a
`Modelled from the spec:` doc comment.

Part II embeds `sortApis` from `packages/generator/src/renderer.ts` and the
parameter-splitting logic of the generated operation methods from the
Handlebars operations template.
-/

/-! ## Generic list/string helpers (kernel-reduction friendly) -/

/-- Lowercase every character of a string. -/
def lowerStr (s : String) : String := String.mk (s.data.map Char.toLower)

/-- Split a character list on a separator character; the accumulator holds the
current segment reversed. -/
def splitAux (c : Char) : List Char → List Char → List (List Char)
  | [], acc => [acc.reverse]
  | x :: xs, acc =>
    if x = c then acc.reverse :: splitAux c xs []
    else splitAux c xs (x :: acc)

/-- Split a character list on a separator character. -/
def splitOnChar (c : Char) (l : List Char) : List (List Char) := splitAux c l []

/-- Remove leading and trailing spaces from a character list. -/
def trimChars (l : List Char) : List Char :=
  ((l.dropWhile (· = ' ')).reverse.dropWhile (· = ' ')).reverse

/-- Parse a nonempty all-digit character list as a natural number. -/
def digitsToNat? (l : List Char) : Option Nat :=
  if l ≠ [] ∧ l.all Char.isDigit then
    some (l.foldl (fun a c => a * 10 + (c.toNat - 48)) 0)
  else none

/-! ## Part I: the caching subsystem, modelled from the specification -/

/-- HTTP methods relevant to the cache (spec §6: method is case-insensitive;
it is modelled as an enumeration, i.e. already normalized). -/
inductive Method
  | get
  | head
  | post
  | put
  | patch
  | delete
  deriving DecidableEq, Repr

/-- Headers: an ordered list of (name, value) pairs with case-insensitive
names (spec §6). -/
abbrev Headers := List (String × String)

/-- An HTTP request as seen by the cache (spec §3). -/
structure Request where
  method : Method
  url : String
  headers : Headers
  deriving DecidableEq, Repr

/-- An HTTP response as seen by the cache (spec §3); the body is a byte
sequence, modelled as a string. -/
structure Response where
  status : Nat
  headers : Headers
  body : String
  deriving DecidableEq, Repr

/-- A persisted cache entry (spec §3): timestamp, response metadata
(status, headers, url) and the captured body. -/
structure CacheEntry where
  storedAt : Nat
  status : Nat
  url : String
  headers : Headers
  body : String
  deriving DecidableEq, Repr

/-- The error taxonomy of spec §7. -/
inductive CacheError
  | invalidRequest
  | invalidResponse
  | cacheConsistency
  deriving DecidableEq, Repr

/-- Freshness classification (spec §4.2). -/
inductive Freshness
  | fresh
  | stale
  | mustRevalidate
  deriving DecidableEq, Repr

/-- Modelled from the spec: §4.1 requires `computeKey` to fail unless the
request has a well-formed absolute URL (scheme and host present).  A URL is
accepted when it is `scheme:‌//host...` with a nonempty alphabetic scheme and
a nonempty host. -/
def isAbsoluteUrl (u : String) : Bool :=
  match schemeSplit u.data with
  | none => false
  | some (scheme, rest) =>
    decide (scheme ≠ []) && scheme.all Char.isAlpha &&
    match rest with
    | '/' :: '/' :: host =>
      match host with
      | [] => false
      | h :: _ => decide (h ≠ '/')
    | _ => false
where
  /-- Split a character list at the first colon: `some (before, after)`. -/
  schemeSplit : List Char → Option (List Char × List Char)
    | [] => none
    | c :: cs =>
      if c = ':' then some ([], cs)
      else (schemeSplit cs).map (fun p => (c :: p.1, p.2))

/-- Modelled from the spec: the cache key normalizes the URL only "modulo
query-parameter canonicalization" (spec §3), which is left unspecified; it is
modelled as the identity, so equivalent requests are those with equal method
and equal (normalized) URL. -/
def normalizeUrl (u : String) : String := u

/-- A cache key: method plus normalized URL (spec §3, §4.1: method is part of
the key; HEAD and GET are distinct slots). -/
abbrev CacheKey := Method × String

/-- Modelled from the spec: `CacheKeyPolicy.computeKey` (spec §4.1) — fails
with `InvalidRequestError` if the request lacks a well-formed absolute URL. -/
def computeKey (r : Request) : Except CacheError CacheKey :=
  if isAbsoluteUrl r.url then .ok (r.method, normalizeUrl r.url)
  else .error .invalidRequest

/-- The pluggable key/value store (spec §2, §6), modelled as an association
list from keys to entries; `find` is first-match lookup. -/
abbrev Store := List (CacheKey × CacheEntry)

/-- Read an entry from the store. -/
def findEntry (s : Store) (k : CacheKey) : Option CacheEntry :=
  (s.find? (fun kv => decide (kv.1 = k))).map (·.2)

/-- Write (create or overwrite) an entry in the store. -/
def setEntry (s : Store) (k : CacheKey) (e : CacheEntry) : Store :=
  (k, e) :: s.filter (fun kv => decide (kv.1 ≠ k))

/-- All Cache-Control directives carried by a header list: each
`Cache-Control` value (name compared case-insensitively) is split on commas,
trimmed and lowercased (spec §4.2). -/
def cacheControlDirectives (hs : Headers) : List (List Char) :=
  (hs.filter (fun h => lowerStr h.1 == "cache-control")).flatMap
    (fun h => (splitOnChar ',' h.2.data).map (fun d => trimChars (d.map Char.toLower)))

/-- Whether a given directive is present among the Cache-Control values. -/
def hasDirective (hs : Headers) (d : String) : Bool :=
  (cacheControlDirectives hs).any (fun x => decide (x = d.data))

/-- `no-store` present (spec §4.2: a storage-admission decision at `put`). -/
def hasNoStore (hs : Headers) : Bool := hasDirective hs "no-store"

/-- `no-cache` present (spec §4.2: forces MUST_REVALIDATE regardless of age). -/
def hasNoCache (hs : Headers) : Bool := hasDirective hs "no-cache"

/-- `must-revalidate` present (spec §4.2). -/
def hasMustRevalidate (hs : Headers) : Bool := hasDirective hs "must-revalidate"

/-- The value of the first `max-age=N` directive, if any.  Spec §4.2: numeric
parsing fails soft — an unparsable value is treated as `0` (immediately
stale). -/
def maxAgeDirective (hs : Headers) : Option Nat :=
  (cacheControlDirectives hs).findSome? (fun d =>
    if d.take 8 = "max-age=".data then some ((digitsToNat? (d.drop 8)).getD 0)
    else none)

/-- The `Expires` header parsed as a timestamp, if present; spec §4.2 reads
`Expires` but mandates no date format, so it is modelled as decimal seconds,
failing soft to `0` like `max-age`. -/
def expiresTime (hs : Headers) : Option Nat :=
  ((hs.find? (fun h => lowerStr h.1 == "expires")).map (·.2)).map
    (fun v => (digitsToNat? (trimChars v.data)).getD 0)

/-- Modelled from the spec: `FreshnessEvaluator.classify` (spec §4.2).
`no-cache` forces MUST_REVALIDATE regardless of age; `max-age=N` makes the
entry fresh while its age is below `N` (so `max-age=0` is immediately stale);
absent `max-age`, an `Expires` timestamp is honored; absent any directive the
entry is FRESH — the spec leaves the default window implementation-defined
(§4.2) and its own testable properties (§8) require `put`-then-`match` to
return the stored response, which fixes the default to FRESH here.  An entry
expired by `max-age`/`Expires` with `must-revalidate` present classifies as
MUST_REVALIDATE, otherwise STALE. -/
def classify (e : CacheEntry) (now : Nat) : Freshness :=
  if hasNoCache e.headers then .mustRevalidate
  else
    let expired : Bool :=
      match maxAgeDirective e.headers with
      | some n => decide (n ≤ now - e.storedAt)
      | none =>
        match expiresTime e.headers with
        | some t => decide (t ≤ now)
        | none => false
    if expired then
      if hasMustRevalidate e.headers then .mustRevalidate else .stale
    else .fresh

/-- Spec §4.3: the cacheable status set — "200, and other final success
codes", modelled as the 2xx range. -/
def cacheableStatus (s : Nat) : Bool := decide (200 ≤ s) && decide (s < 300)

/-- Per-header overwrite merge (spec §4.3, the 304 path): every header of the
update replaces a same-named (case-insensitive) stored header; stored headers
without an update survive. -/
def mergeHeaders (old new : Headers) : Headers :=
  old.filter (fun h => !(new.any (fun g => lowerStr g.1 == lowerStr h.1))) ++ new

/-- The cache entry captured from a request/response pair at time `now`
(spec §3, §4.3). -/
def mkEntry (req : Request) (resp : Response) (now : Nat) : CacheEntry :=
  { storedAt := now
    status := resp.status
    url := normalizeUrl req.url
    headers := resp.headers
    body := resp.body }

/-- The full response reconstructed from a stored entry. -/
def entryResponse (e : CacheEntry) : Response :=
  { status := e.status, headers := e.headers, body := e.body }

/-- Result of a `match`: a miss (null), or a hit carrying the response and
whether the caller must attach conditional revalidation headers
(spec §4.3). -/
inductive MatchResult
  | miss
  | hit (response : Response) (revalidate : Bool)
  deriving DecidableEq, Repr

/-- Modelled from the spec: `CacheManager.put` (spec §4.3).  Fails with
`InvalidRequestError` on a null request or a malformed/relative URL.  A 304
response looks up the existing entry by key — failing with
`CacheConsistencyError` when none exists — and otherwise merges the 304's
headers onto the stored headers (stored body untouched), refreshes
`storedAt`, persists, and returns the reconstructed full response.  A
cacheable-status response without `no-store` is persisted (body buffered, so
the returned response is the caller's own, still consumable).  Anything else
is not persisted and the input response is returned unchanged. -/
def put (s : Store) (req? : Option Request) (resp : Response) (now : Nat) :
    Except CacheError (Store × Response) :=
  match req? with
  | none => .error .invalidRequest
  | some req =>
    match computeKey req with
    | .error e => .error e
    | .ok k =>
      if resp.status = 304 then
        match findEntry s k with
        | none => .error .cacheConsistency
        | some e =>
          let merged : CacheEntry :=
            { e with headers := mergeHeaders e.headers resp.headers, storedAt := now }
          .ok (setEntry s k merged,
               { status := e.status, headers := merged.headers, body := e.body })
      else if cacheableStatus resp.status && !hasNoStore resp.headers then
        .ok (setEntry s k (mkEntry req resp now), resp)
      else
        .ok (s, resp)

/-- Modelled from the spec: `CacheManager.match` (spec §4.3; named `matchOp`
because `match` is reserved in Lean).  Fails with `InvalidRequestError` on a
null request or no usable URL.  On a key hit, the entry is classified:
FRESH returns the cached response, STALE returns a miss (null),
MUST_REVALIDATE returns the cached response annotated for revalidation.  On
a key miss with method HEAD, a GET entry for the same URL satisfies the
request with a synthesized empty-body response (the HEAD/GET symmetry
rule). -/
def matchOp (s : Store) (req? : Option Request) (now : Nat) :
    Except CacheError MatchResult :=
  match req? with
  | none => .error .invalidRequest
  | some req =>
    match computeKey req with
    | .error e => .error e
    | .ok k =>
      match findEntry s k with
      | some e =>
        match classify e now with
        | .fresh => .ok (.hit (entryResponse e) false)
        | .stale => .ok .miss
        | .mustRevalidate => .ok (.hit (entryResponse e) true)
      | none =>
        if req.method = .head then
          match findEntry s (Method.get, normalizeUrl req.url) with
          | some g => .ok (.hit { status := g.status, headers := g.headers, body := "" } false)
          | none => .ok .miss
        else .ok .miss

/-- The result of merging a 304 response into a stored entry (spec §4.3):
headers merged with per-header overwrite, body untouched, `storedAt`
refreshed. -/
def mergedEntry (e : CacheEntry) (resp : Response) (now : Nat) : CacheEntry :=
  { e with headers := mergeHeaders e.headers resp.headers, storedAt := now }

/-! ### Concrete fixtures used by counterexamples and witnesses -/

/-- A plain GET request to a well-formed absolute URL (as in the tests). -/
def exReq : Request := { method := .get, url := "https://example.com", headers := [] }

/-- A HEAD request to the same URL. -/
def headReq : Request := { method := .head, url := "https://example.com", headers := [] }

/-- A request with a malformed/relative URL (as in the tests). -/
def badReq : Request := { method := .get, url := "no-good", headers := [] }

/-- A directive-free 200 response (the body of the tests). -/
def exResp200 : Response := { status := 200, headers := [], body := "test-body" }

/-- A 200 response that carries no `no-store` directive but is immediately
stale (`max-age=0`). -/
def exResp200stale : Response :=
  { status := 200, headers := [("cache-control", "max-age=0")], body := "test-body" }

/-- The store state after `put exReq exResp200stale` at time 0. -/
def exStaleStore : Store :=
  [((Method.get, "https://example.com"), mkEntry exReq exResp200stale 0)]

/-- A plain 304 revalidation response carrying a validator header. -/
def exResp304 : Response := { status := 304, headers := [("etag", "\"v2\"")], body := "" }

/-- A 304 revalidation response whose headers make the merged entry
immediately stale. -/
def exResp304stale : Response :=
  { status := 304, headers := [("cache-control", "max-age=0")], body := "" }

/-- A 304 revalidation response that carries a `no-store` directive. -/
def exResp304nostore : Response :=
  { status := 304, headers := [("cache-control", "no-store")], body := "" }

/-- A 200 response carrying `no-store`. -/
def respNoStore200 : Response :=
  { status := 200, headers := [("cache-control", "no-store")], body := "x" }

/-- A stored entry without freshness directives. -/
def e0 : CacheEntry :=
  { storedAt := 0, status := 200, url := "https://example.com", headers := [], body := "b" }

/-- A store holding `e0` under the GET key. -/
def store0 : Store := [((Method.get, "https://example.com"), e0)]

/-- `e0` after merging `exResp304stale` at time 7. -/
def mergedStale : CacheEntry :=
  { storedAt := 7, status := 200, url := "https://example.com",
    headers := [("cache-control", "max-age=0")], body := "b" }

/-- `e0` after merging `exResp304nostore` at time 3. -/
def mergedNoStore : CacheEntry :=
  { storedAt := 3, status := 200, url := "https://example.com",
    headers := [("cache-control", "no-store")], body := "b" }

/-! ## Part II: the generator code under `src/`

### `sortApis` (packages/generator/src/renderer.ts)

```ts
export function sortApis(apis: ApiClientsInfoT[]): void {
  const compare = (a: string, b: string): number => (a > b ? 1 : -1);
  // Sort API families
  apis.sort((a, b) => compare(a[0].family, b[0].family));
  // Sort APIs within each family
  apis.forEach(details =>
    details.sort((a, b) => compare(a.config.name, b.config.name))
  );
}
```

One element of `ApiClientsInfoT` (an API's info: family name, its config
name, and the opaque AMF model, represented by an identifier). -/
structure ApiInfo where
  family : String
  configName : String
  modelId : Nat
  deriving DecidableEq, Repr

/-- A string as the list of its character codes, for lexicographic
comparison (JavaScript `>` on strings compares code units; for strings in
the basic multilingual plane this is code-point lexicographic order). -/
def strKey (s : String) : List Nat := s.data.map Char.toNat

/-- Strict lexicographic order on code lists. -/
def lexLt : List Nat → List Nat → Bool
  | [], [] => false
  | [], _ :: _ => true
  | _ :: _, [] => false
  | a :: as, b :: bs =>
    if a < b then true else if b < a then false else lexLt as bs

/-- Insert into a sorted list, keeping `x` before the first element `y` with
`le x y` (this is where `Array.prototype.sort`'s comparator decides order:
the renderer's comparator `(a, b) => (a > b ? 1 : -1)` reports `a ≤ b`
exactly when `¬(a > b)`). -/
def insertLe (le : α → α → Bool) (x : α) : List α → List α
  | [] => [x]
  | y :: ys => if le x y then x :: y :: ys else y :: insertLe le x ys

/-- Stable comparison sort by `le` (models `Array.prototype.sort` with a
comparator: the result is a permutation of the input, sorted when the
comparator is consistent). -/
def sortBy (le : α → α → Bool) : List α → List α
  | [] => []
  | x :: xs => insertLe le x (sortBy le xs)

/-- The key the outer sort compares: `a[0].family`, i.e. the family name of
the group's FIRST element (`[]` for an empty group, but on an empty group the
real code crashes before reading it — see `sortApis`). -/
def keyOfGroup (d : List ApiInfo) : List Nat :=
  match d with
  | [] => []
  | x :: _ => strKey x.family

/-- The outer comparator's "keep in order" relation:
`compare(a[0].family, b[0].family) ≤ 0`, i.e. `¬(a[0].family > b[0].family)`. -/
def outerLe (g h : List ApiInfo) : Bool := !(lexLt (keyOfGroup h) (keyOfGroup g))

/-- The inner comparator's "keep in order" relation:
`compare(a.config.name, b.config.name) ≤ 0`. -/
def innerLe (x y : ApiInfo) : Bool := !(lexLt (strKey y.configName) (strKey x.configName))

/-- `sortApis` from renderer.ts.  The outer comparator reads `a[0].family`;
when the outer array has at least two elements the comparator runs at least
once on every element, so any empty group makes the whole call throw a
`TypeError` (`a[0]` is `undefined`).  Otherwise the outer array is sorted by
the groups' first-element family names and then each group is sorted by
`config.name` (JavaScript's sort is modelled by a stable insertion sort;
with the never-zero comparator `(a > b ? 1 : -1)` ties keep a definite
order, and any order among ties is nondecreasing for the claim). -/
def sortApis (apis : List (List ApiInfo)) : Except String (List (List ApiInfo)) :=
  if 2 ≤ apis.length ∧ apis.any (·.isEmpty) then
    .error "TypeError: Cannot read property of undefined"
  else
    .ok ((sortBy outerLe apis).map (fun d => sortBy innerLe d))

/-! ### The generated operation methods (Handlebars operations template)

```ts
const parameters = (options && options.parameters) ? options.parameters : {};
const pathParameters = {
  "p": parameters["p"] /* common: */ !== undefined ? parameters["p"]
       : this.clientConfig.parameters["p"], ...
};
const queryParameters = _.omit(parameters, _.keys(pathParameters));
/* for each common query parameter q of the endpoint: */
queryParameters["q"] = queryParameters["q"] !== undefined
    ? parameters["q"] : this.clientConfig.parameters["q"];
```
-/

/-- A JavaScript value slot: `undefined` or a (string) value. -/
inductive JsVal
  | undefined
  | str (s : String)
  deriving DecidableEq, Repr

/-- A JavaScript object: own enumerable keys in order. -/
abbrev JsObj := List (String × JsVal)

/-- Property read: `o[k]`, `undefined` when the key is absent. -/
def JsObj.read (o : JsObj) (k : String) : JsVal :=
  match o.find? (fun p => decide (p.1 = k)) with
  | some p => p.2
  | none => .undefined

/-- Whether `k` is an own key of `o`. -/
def JsObj.hasKey (o : JsObj) (k : String) : Bool := o.any (fun p => decide (p.1 = k))

/-- Property write: `o[k] = v` keeps an existing key's position, otherwise
appends the new key. -/
def JsObj.set (o : JsObj) (k : String) (v : JsVal) : JsObj :=
  if o.hasKey k then o.map (fun p => if p.1 = k then (k, v) else p)
  else o ++ [(k, v)]

/-- The own-key list of an object. -/
def objKeys (o : JsObj) : List String := o.map (·.1)

/-- `_.omit(o, ks)`: a copy of `o` without the keys in `ks`. -/
def omitKeys (o : JsObj) (ks : List String) : JsObj :=
  o.filter (fun p => decide (p.1 ∉ ks))

/-- An endpoint as the template sees it: its path parameters and its query
parameters, each tagged with whether it is a "common" parameter (one that
`isCommonPathParameter`/`isCommonQueryParameter` recognizes from
commerce-cloud-standards, e.g. `organizationId`, `siteId`) and therefore
falls back to the client configuration. -/
structure Endpoint where
  pathParams : List (String × Bool)
  queryParams : List (String × Bool)
  deriving DecidableEq, Repr

/-- The endpoint's path parameter names (`_.keys(pathParameters)` — the
generated object literal always carries every path parameter key). -/
def pathKeys (ep : Endpoint) : List String := ep.pathParams.map (·.1)

/-- The endpoint's common query parameter names. -/
def commonQueryNames (ep : Endpoint) : List String :=
  (ep.queryParams.filter (·.2)).map (·.1)

/-- The `pathParameters` object built by a generated operation method: every
endpoint path parameter, from the caller's `parameters` object, with common
path parameters falling back to the client config when undefined. -/
def genPathParameters (ep : Endpoint) (clientCfg params : JsObj) : JsObj :=
  ep.pathParams.map (fun q =>
    (q.1, if q.2 then
            (if params.read q.1 ≠ .undefined then params.read q.1 else clientCfg.read q.1)
          else params.read q.1))

/-- One step of the common-query-parameter fallback loop:
`queryParameters["q"] = queryParameters["q"] !== undefined ? parameters["q"]
: this.clientConfig.parameters["q"]` (only for common query parameters). -/
def commonQueryStep (clientCfg params : JsObj) (qp : JsObj) (q : String × Bool) : JsObj :=
  if q.2 then
    qp.set q.1 (if qp.read q.1 ≠ .undefined then params.read q.1 else clientCfg.read q.1)
  else qp

/-- The `queryParameters` object dispatched to `StaticClient`: the caller's
`parameters` minus all path parameter keys, then the common-query-parameter
fallback loop. -/
def genQueryParameters (ep : Endpoint) (clientCfg params : JsObj) : JsObj :=
  ep.queryParams.foldl (commonQueryStep clientCfg params)
    (omitKeys params (pathKeys ep))

/-- A two-family input for `sortApis`, out of order both between and within
families. -/
def apisW : List (List ApiInfo) :=
  [[{ family := "b", configName := "y", modelId := 0 },
    { family := "b", configName := "x", modelId := 1 }],
   [{ family := "a", configName := "z", modelId := 2 }]]

/-- An endpoint with one common path parameter and one common query
parameter (as in the shopper APIs: `organizationId` in the path, `siteId`
in the query). -/
def epC10 : Endpoint :=
  { pathParams := [("organizationId", true)], queryParams := [("siteId", true)] }

/-- A client configuration supplying both common parameters. -/
def cfgC10 : JsObj :=
  [("organizationId", .str "org1"), ("siteId", .str "site1")]

/-- A caller-supplied parameters object: the common path parameter plus one
ordinary (non-common) query parameter. -/
def paramsC10 : JsObj := [("organizationId", .str "o"), ("c1", .str "v1")]

/-! ## Theorems

### Store lemmas -/

/-- Reading back the key just written returns the written entry. -/
theorem findEntry_setEntry_self (s : Store) (k : CacheKey) (e : CacheEntry) :
    findEntry (setEntry s k e) k = some e := by
  simp [findEntry, setEntry]

/-- Writing the same entry twice is the same as writing it once. -/
theorem setEntry_setEntry (s : Store) (k : CacheKey) (e : CacheEntry) :
    setEntry (setEntry s k e) k e = setEntry s k e := by
  simp [setEntry, List.filter_filter]

/-- Claim C1 (amended): for every non-null request with a well-formed absolute
URL and every 200 response without a `no-store` directive, `put` persists the
captured entry and returns the input response itself (so its body is still
consumable), and a `match` with an equivalent request (same method, same
normalized URL) whose entry does not classify as STALE returns a response
whose body equals the original response body. -/
theorem put_then_match_returns_body
    (s : Store) (req req' : Request) (resp : Response) (now now' : Nat)
    (hurl : isAbsoluteUrl req.url = true)
    (hurl' : isAbsoluteUrl req'.url = true)
    (hm : req'.method = req.method)
    (hu : normalizeUrl req'.url = normalizeUrl req.url)
    (hstatus : resp.status = 200)
    (hns : hasNoStore resp.headers = false)
    (hfresh : classify (mkEntry req resp now) now' ≠ .stale) :
    put s (some req) resp now =
      .ok (setEntry s (req.method, normalizeUrl req.url) (mkEntry req resp now), resp) ∧
    ∃ rv,
      matchOp (setEntry s (req.method, normalizeUrl req.url) (mkEntry req resp now))
          (some req') now' =
        .ok (.hit (entryResponse (mkEntry req resp now)) rv) ∧
      (entryResponse (mkEntry req resp now)).body = resp.body := by
  have hk : computeKey req = .ok (req.method, normalizeUrl req.url) := by
    simp [computeKey, hurl]
  have hk' : computeKey req' = .ok (req.method, normalizeUrl req.url) := by
    simp [computeKey, hurl', hm, hu]
  constructor
  · simp [put, hk, hstatus, cacheableStatus, hns]
  · have hfind := findEntry_setEntry_self s (req.method, normalizeUrl req.url) (mkEntry req resp now)
    rcases hcl : classify (mkEntry req resp now) now' with _ | _ | _
    · exact ⟨false, by simp [matchOp, hk', hfind, hcl], rfl⟩
    · exact absurd hcl hfresh
    · exact ⟨true, by simp [matchOp, hk', hfind, hcl], rfl⟩

/-- Claim C2: for every request key and every 304 response given to `put`,
if no cache entry exists for that key, `put` fails with
`CacheConsistencyError` (the error is the operation's result, surfaced to
the caller, never silently ignored). -/
theorem put304_without_entry_fails
    (s : Store) (req : Request) (resp : Response) (now : Nat)
    (hurl : isAbsoluteUrl req.url = true)
    (h304 : resp.status = 304)
    (hmiss : findEntry s (req.method, normalizeUrl req.url) = none) :
    put s (some req) resp now = .error .cacheConsistency := by
  have hk : computeKey req = .ok (req.method, normalizeUrl req.url) := by
    simp [computeKey, hurl]
  simp [put, hk, h304, hmiss]

/-- Claim C4: for every URL for which only a GET cache entry exists (no HEAD
entry), `match` of a HEAD request returns a response synthesized from the
GET entry's stored headers with an empty body, rather than null. -/
theorem match_head_satisfied_by_get
    (s : Store) (req : Request) (g : CacheEntry) (now : Nat)
    (hurl : isAbsoluteUrl req.url = true)
    (hhead : req.method = .head)
    (hnohead : findEntry s (Method.head, normalizeUrl req.url) = none)
    (hget : findEntry s (Method.get, normalizeUrl req.url) = some g) :
    matchOp s (some req) now =
      .ok (.hit { status := g.status, headers := g.headers, body := "" } false) := by
  have hk : computeKey req = .ok (Method.head, normalizeUrl req.url) := by
    simp [computeKey, hurl, hhead]
  simp [matchOp, hk, hnohead, hhead, hget]

/-- Claim C5: for every response, `put(null, response)` fails with
`InvalidRequestError`, and so does `match(null)`; the error is the
operation's result (surfaced, never retried internally). -/
theorem null_request_invalid (s : Store) (resp : Response) (now : Nat) :
    put s none resp now = .error .invalidRequest ∧
    matchOp s none now = .error .invalidRequest := ⟨rfl, rfl⟩

/-- Claim C6: for every request whose URL is malformed or relative (no
scheme/host) and every response, `put(request, response)` rejects with
`InvalidRequestError`; it never silently succeeds. -/
theorem put_bad_url_rejects (s : Store) (req : Request) (resp : Response) (now : Nat)
    (hbad : isAbsoluteUrl req.url = false) :
    put s (some req) resp now = .error .invalidRequest := by
  simp [put, computeKey, hbad]

/-- Claim C7 (amended): for every request and every response with status
other than 304 that carries a `no-store` directive or has a non-cacheable
status, `put` persists nothing — the store is returned unchanged, so every
key's entry is unchanged — and `put` returns the input response itself
(still readable by the caller).  The 304 exclusion is forced by
`put_no_store_counterexample`: a 304 revalidation response takes the merge
path first and does persist, even when it carries `no-store`. -/
theorem put_no_store_not_persisted (s : Store) (req : Request) (resp : Response) (now : Nat)
    (hurl : isAbsoluteUrl req.url = true)
    (h304 : resp.status ≠ 304)
    (h : hasNoStore resp.headers = true ∨ cacheableStatus resp.status = false) :
    put s (some req) resp now = .ok (s, resp) := by
  have hk : computeKey req = .ok (req.method, normalizeUrl req.url) := by
    simp [computeKey, hurl]
  rcases h with h | h <;> simp [put, hk, h304, h]

/-- Claim C8: `put` is idempotent with respect to `match` — for every
request with a usable URL and every cacheable response (cacheable status, no
`no-store`), two successive `put`s of the same request and response followed
by a `match` (with any request, at any time) give the same result as one
`put` followed by the same `match`. -/
theorem put_idempotent_for_match
    (s : Store) (req : Request) (resp : Response) (now now' : Nat) (q : Option Request)
    (hurl : isAbsoluteUrl req.url = true)
    (hc : cacheableStatus resp.status = true)
    (hns : hasNoStore resp.headers = false) :
    ∃ s1 s2,
      put s (some req) resp now = .ok (s1, resp) ∧
      put s1 (some req) resp now = .ok (s2, resp) ∧
      matchOp s2 q now' = matchOp s1 q now' := by
  have hk : computeKey req = .ok (req.method, normalizeUrl req.url) := by
    simp [computeKey, hurl]
  have hrange : 200 ≤ resp.status ∧ resp.status < 300 := by
    simpa [cacheableStatus] using hc
  have h304 : ¬(resp.status = 304) := by omega
  refine ⟨setEntry s (req.method, normalizeUrl req.url) (mkEntry req resp now),
          setEntry (setEntry s (req.method, normalizeUrl req.url) (mkEntry req resp now))
            (req.method, normalizeUrl req.url) (mkEntry req resp now), ?_, ?_, ?_⟩
  · simp [put, hk, h304, hc, hns]
  · simp [put, hk, h304, hc, hns]
  · rw [setEntry_setEntry]

/-- Claim C3 (amended): for every key with an existing cache entry, `put` of
a 304 response merges the 304's headers onto the stored headers with
per-header overwrite, leaves the stored body unchanged, refreshes
`storedAt`, persists the merged entry, and returns a full response of merged
headers plus the original cached body; a subsequent `match` with an
equivalent request returns the merged headers with the original body
provided the merged entry does not classify as STALE (the proviso is forced
by `put304_merge_match_counterexample`: a 304 whose merged headers make the
entry immediately stale turns the subsequent `match` into a miss). -/
theorem put304_merge_preserves_body
    (s : Store) (req req' : Request) (resp : Response) (e : CacheEntry) (now now' : Nat)
    (hurl : isAbsoluteUrl req.url = true)
    (hurl' : isAbsoluteUrl req'.url = true)
    (hm : req'.method = req.method)
    (hu : normalizeUrl req'.url = normalizeUrl req.url)
    (h304 : resp.status = 304)
    (hent : findEntry s (req.method, normalizeUrl req.url) = some e)
    (hfresh : classify (mergedEntry e resp now) now' ≠ .stale) :
    (mergedEntry e resp now).storedAt = now ∧
    (mergedEntry e resp now).body = e.body ∧
    put s (some req) resp now =
      .ok (setEntry s (req.method, normalizeUrl req.url) (mergedEntry e resp now),
           { status := e.status, headers := mergeHeaders e.headers resp.headers, body := e.body }) ∧
    ∃ rv,
      matchOp (setEntry s (req.method, normalizeUrl req.url) (mergedEntry e resp now))
          (some req') now' =
        .ok (.hit { status := e.status, headers := mergeHeaders e.headers resp.headers,
                    body := e.body } rv) := by
  have hk : computeKey req = .ok (req.method, normalizeUrl req.url) := by
    simp [computeKey, hurl]
  have hk' : computeKey req' = .ok (req.method, normalizeUrl req.url) := by
    simp [computeKey, hurl', hm, hu]
  refine ⟨rfl, rfl, ?_, ?_⟩
  · simp [put, hk, h304, hent, mergedEntry]
  · have hfind := findEntry_setEntry_self s (req.method, normalizeUrl req.url)
      (mergedEntry e resp now)
    rcases hcl : classify (mergedEntry e resp now) now' with _ | _ | _
    · refine ⟨false, ?_⟩
      simp only [matchOp, hk', hfind, hcl]
      simp [mergedEntry, entryResponse]
    · exact absurd hcl hfresh
    · refine ⟨true, ?_⟩
      simp only [matchOp, hk', hfind, hcl]
      simp [mergedEntry, entryResponse]

/-- Claim C1, counterexample to the claim as stated: a 200 response carrying
no `no-store` directive but `cache-control: max-age=0` is persisted by
`put`, yet `match` with the very same request returns a miss (null), not a
response whose body deep-equals the original. -/
theorem put_then_match_stale_counterexample :
    exResp200stale.status = 200 ∧
    hasNoStore exResp200stale.headers = false ∧
    isAbsoluteUrl exReq.url = true ∧
    put [] (some exReq) exResp200stale 0 = .ok (exStaleStore, exResp200stale) ∧
    matchOp exStaleStore (some exReq) 0 = .ok .miss :=
  ⟨rfl, rfl, rfl, rfl, rfl⟩

/-- Witness for `put_then_match_returns_body` at a concrete input. -/
theorem put_then_match_returns_body_witness :
    isAbsoluteUrl exReq.url = true ∧ exResp200.status = 200 ∧
    hasNoStore exResp200.headers = false ∧
    classify (mkEntry exReq exResp200 0) 5 ≠ .stale ∧
    (put [] (some exReq) exResp200 0 =
      .ok (setEntry [] (exReq.method, normalizeUrl exReq.url) (mkEntry exReq exResp200 0),
           exResp200) ∧
     ∃ rv,
       matchOp (setEntry [] (exReq.method, normalizeUrl exReq.url) (mkEntry exReq exResp200 0))
           (some exReq) 5 =
         .ok (.hit (entryResponse (mkEntry exReq exResp200 0)) rv) ∧
       (entryResponse (mkEntry exReq exResp200 0)).body = exResp200.body) :=
  ⟨rfl, rfl, rfl, by decide,
   put_then_match_returns_body [] exReq exReq exResp200 0 5 rfl rfl rfl rfl rfl rfl (by decide)⟩

/-- Witness for `put304_without_entry_fails` at a concrete input. -/
theorem put304_without_entry_fails_witness :
    isAbsoluteUrl exReq.url = true ∧ exResp304.status = 304 ∧
    findEntry [] (exReq.method, normalizeUrl exReq.url) = none ∧
    put [] (some exReq) exResp304 0 = .error .cacheConsistency :=
  ⟨rfl, rfl, rfl, put304_without_entry_fails [] exReq exResp304 0 rfl rfl rfl⟩

/-- Claim C3, counterexample to the claim as stated: merging a 304 whose
headers carry `cache-control: max-age=0` onto a stored entry persists the
merged entry and returns merged headers with the original body, but the
subsequent `match` returns a miss, not the merged headers with the original
body. -/
theorem put304_merge_match_counterexample :
    findEntry store0 (Method.get, "https://example.com") = some e0 ∧
    put store0 (some exReq) exResp304stale 7 =
      .ok ([((Method.get, "https://example.com"), mergedStale)],
           { status := 200, headers := [("cache-control", "max-age=0")], body := "b" }) ∧
    matchOp [((Method.get, "https://example.com"), mergedStale)] (some exReq) 7 = .ok .miss :=
  ⟨rfl, rfl, rfl⟩

/-- Witness for `put304_merge_preserves_body` at a concrete input. -/
theorem put304_merge_preserves_body_witness :
    isAbsoluteUrl exReq.url = true ∧ exResp304.status = 304 ∧
    findEntry store0 (exReq.method, normalizeUrl exReq.url) = some e0 ∧
    classify (mergedEntry e0 exResp304 1) 2 ≠ .stale ∧
    ((mergedEntry e0 exResp304 1).storedAt = 1 ∧
     (mergedEntry e0 exResp304 1).body = e0.body ∧
     put store0 (some exReq) exResp304 1 =
       .ok (setEntry store0 (exReq.method, normalizeUrl exReq.url) (mergedEntry e0 exResp304 1),
            { status := e0.status, headers := mergeHeaders e0.headers exResp304.headers,
              body := e0.body }) ∧
     ∃ rv,
       matchOp (setEntry store0 (exReq.method, normalizeUrl exReq.url) (mergedEntry e0 exResp304 1))
           (some exReq) 2 =
         .ok (.hit { status := e0.status, headers := mergeHeaders e0.headers exResp304.headers,
                     body := e0.body } rv)) :=
  ⟨rfl, rfl, rfl, by decide,
   put304_merge_preserves_body store0 exReq exReq exResp304 e0 1 2
     rfl rfl rfl rfl rfl rfl (by decide)⟩

/-- Witness for `match_head_satisfied_by_get` at a concrete input. -/
theorem match_head_satisfied_by_get_witness :
    isAbsoluteUrl headReq.url = true ∧ headReq.method = .head ∧
    findEntry store0 (Method.head, normalizeUrl headReq.url) = none ∧
    findEntry store0 (Method.get, normalizeUrl headReq.url) = some e0 ∧
    matchOp store0 (some headReq) 0 =
      .ok (.hit { status := e0.status, headers := e0.headers, body := "" } false) :=
  ⟨rfl, rfl, rfl, rfl, match_head_satisfied_by_get store0 headReq e0 0 rfl rfl rfl rfl⟩

/-- Witness for `put_bad_url_rejects` at the test's own input (`"no-good"`). -/
theorem put_bad_url_rejects_witness :
    isAbsoluteUrl badReq.url = false ∧
    put [] (some badReq) exResp200 0 = .error .invalidRequest :=
  ⟨rfl, put_bad_url_rejects [] badReq exResp200 0 rfl⟩

/-- Claim C7, counterexample to the claim as stated: a 304 response carrying
`no-store` (304 is also a non-cacheable status) nevertheless causes `put` to
persist — the entry under the request's key changes. -/
theorem put_no_store_counterexample :
    hasNoStore exResp304nostore.headers = true ∧
    cacheableStatus exResp304nostore.status = false ∧
    put store0 (some exReq) exResp304nostore 3 =
      .ok ([((Method.get, "https://example.com"), mergedNoStore)],
           { status := 200, headers := [("cache-control", "no-store")], body := "b" }) ∧
    findEntry [((Method.get, "https://example.com"), mergedNoStore)]
        (Method.get, "https://example.com") ≠
      findEntry store0 (Method.get, "https://example.com") :=
  ⟨rfl, rfl, rfl, by decide⟩

/-- Witness for `put_no_store_not_persisted` at a concrete input. -/
theorem put_no_store_not_persisted_witness :
    isAbsoluteUrl exReq.url = true ∧ respNoStore200.status ≠ 304 ∧
    hasNoStore respNoStore200.headers = true ∧
    put store0 (some exReq) respNoStore200 0 = .ok (store0, respNoStore200) :=
  ⟨rfl, by decide, rfl,
   put_no_store_not_persisted store0 exReq respNoStore200 0 rfl (by decide) (Or.inl rfl)⟩

/-- Witness for `put_idempotent_for_match` at a concrete input. -/
theorem put_idempotent_for_match_witness :
    isAbsoluteUrl exReq.url = true ∧
    cacheableStatus exResp200.status = true ∧
    hasNoStore exResp200.headers = false ∧
    (∃ s1 s2,
      put [] (some exReq) exResp200 0 = .ok (s1, exResp200) ∧
      put s1 (some exReq) exResp200 0 = .ok (s2, exResp200) ∧
      matchOp s2 (some exReq) 9 = matchOp s1 (some exReq) 9) :=
  ⟨rfl, rfl, rfl, put_idempotent_for_match [] exReq exResp200 0 9 (some exReq) rfl rfl rfl⟩

/-! ### Claim C9: `sortApis` (order lemmas, then the claim) -/

theorem lexLt_irrefl : ∀ a, lexLt a a = false
  | [] => rfl
  | x :: xs => by simp [lexLt, lexLt_irrefl xs]

theorem lexLt_asymm : ∀ a b, lexLt a b = true → lexLt b a = false
  | [], [] => by simp [lexLt]
  | [], _ :: _ => fun _ => rfl
  | _ :: _, [] => by simp [lexLt]
  | a :: as, b :: bs => by
    simp only [lexLt]
    intro h
    by_cases hab : a < b
    · have hba : ¬ b < a := by omega
      simp [hab, hba]
    · by_cases hba : b < a
      · simp [hab, hba] at h
      · have : a = b := by omega
        subst this
        simp only [Nat.lt_irrefl, if_false] at h ⊢
        exact lexLt_asymm as bs h

theorem lexLt_alt : ∀ a b c, lexLt a c = true → lexLt a b = true ∨ lexLt b c = true
  | [], b, c => fun h => by
    cases b with
    | nil =>
      cases c with
      | nil => simp [lexLt] at h
      | cons z zs => exact Or.inr rfl
    | cons y ys => exact Or.inl rfl
  | _ :: _, b, [] => by simp [lexLt]
  | a :: as, b, c :: cs => by
    intro h
    cases b with
    | nil => exact Or.inr rfl
    | cons y ys =>
      simp only [lexLt] at h ⊢
      by_cases hac : a < c
      · by_cases hay : a < y
        · left; simp [hay]
        · right
          have hyc : y < c := by omega
          simp [hyc]
      · by_cases hca : c < a
        · simp [hac, hca] at h
        · have : a = c := by omega
          subst this
          simp only [Nat.lt_irrefl, if_false] at h
          by_cases hay : a < y
          · left; simp [hay]
          · by_cases hya : y < a
            · right; simp [hya]
            · have : a = y := by omega
              subst this
              simp only [Nat.lt_irrefl, if_false]
              exact lexLt_alt as ys cs h

theorem perm_insertLe (le : α → α → Bool) (x : α) :
    ∀ l, List.Perm (insertLe le x l) (x :: l)
  | [] => List.Perm.refl _
  | y :: ys => by
    by_cases h : le x y = true
    · simp [insertLe, h]
    · simp only [insertLe, h, if_false]
      exact ((perm_insertLe le x ys).cons y).trans (List.Perm.swap x y ys)

theorem perm_sortBy (le : α → α → Bool) : ∀ l, List.Perm (sortBy le l) l
  | [] => List.Perm.refl _
  | x :: xs => (perm_insertLe le x (sortBy le xs)).trans ((perm_sortBy le xs).cons x)

theorem pairwise_insertLe (le : α → α → Bool)
    (htot : ∀ a b, le a b = false → le b a = true)
    (htrans : ∀ a b c, le a b = true → le b c = true → le a c = true)
    (x : α) : ∀ l, l.Pairwise (fun a b => le a b = true) →
      (insertLe le x l).Pairwise (fun a b => le a b = true)
  | [], _ => by simp [insertLe]
  | y :: ys, h => by
    rcases List.pairwise_cons.mp h with ⟨hy, hys⟩
    by_cases hxy : le x y = true
    · simp only [insertLe, hxy, if_true]
      refine List.pairwise_cons.mpr ⟨?_, h⟩
      intro z hz
      rcases List.mem_cons.mp hz with rfl | hz'
      · exact hxy
      · exact htrans x y z hxy (hy z hz')
    · simp only [insertLe, hxy, if_false]
      refine List.pairwise_cons.mpr ⟨?_, pairwise_insertLe le htot htrans x ys hys⟩
      intro z hz
      have hz2 : z = x ∨ z ∈ ys := List.mem_cons.mp ((perm_insertLe le x ys).mem_iff.mp hz)
      rcases hz2 with hzx | hz'
      · rw [hzx]
        exact htot x y (by simpa using hxy)
      · exact hy z hz'

theorem pairwise_sortBy (le : α → α → Bool)
    (htot : ∀ a b, le a b = false → le b a = true)
    (htrans : ∀ a b c, le a b = true → le b c = true → le a c = true) :
    ∀ l, (sortBy le l).Pairwise (fun a b => le a b = true)
  | [] => List.Pairwise.nil
  | x :: xs => pairwise_insertLe le htot htrans x (sortBy le xs)
      (pairwise_sortBy le htot htrans xs)

theorem outerLe_total (g h : List ApiInfo) : outerLe g h = false → outerLe h g = true := by
  simp only [outerLe, Bool.not_eq_false', Bool.not_eq_true']
  exact lexLt_asymm _ _

theorem outerLe_trans (a b c : List ApiInfo) :
    outerLe a b = true → outerLe b c = true → outerLe a c = true := by
  simp only [outerLe, Bool.not_eq_true']
  intro hba hcb
  by_contra hca
  rcases lexLt_alt _ (keyOfGroup b) _ (by simpa using hca) with h | h
  · rw [hcb] at h; exact Bool.false_ne_true h
  · rw [hba] at h; exact Bool.false_ne_true h

theorem innerLe_total (x y : ApiInfo) : innerLe x y = false → innerLe y x = true := by
  simp only [innerLe, Bool.not_eq_false', Bool.not_eq_true']
  exact lexLt_asymm _ _

theorem innerLe_trans (a b c : ApiInfo) :
    innerLe a b = true → innerLe b c = true → innerLe a c = true := by
  simp only [innerLe, Bool.not_eq_true']
  intro hba hcb
  by_contra hca
  rcases lexLt_alt _ (strKey b.configName) _ (by simpa using hca) with h | h
  · rw [hcb] at h; exact Bool.false_ne_true h
  · rw [hba] at h; exact Bool.false_ne_true h

theorem keyOfGroup_sortBy_inner (d : List ApiInfo) (hne : d ≠ [])
    (hhom : ∀ x ∈ d, ∀ y ∈ d, x.family = y.family) :
    keyOfGroup (sortBy innerLe d) = keyOfGroup d := by
  cases hd : sortBy innerLe d with
  | nil =>
    have hp := perm_sortBy innerLe d
    rw [hd] at hp
    exact absurd (hp.symm.eq_nil) hne
  | cons z zs =>
    cases d with
    | nil => exact absurd rfl hne
    | cons x xs =>
      have hz : z ∈ sortBy innerLe (x :: xs) := by
        rw [hd]; exact List.mem_cons_self z zs
      have hzd : z ∈ x :: xs := (perm_sortBy innerLe _).mem_iff.mp hz
      have hfam : z.family = x.family := hhom z hzd x (List.mem_cons_self x xs)
      simp [keyOfGroup, hfam]

theorem forall2_perm_inner_map (l : List (List ApiInfo)) :
    List.Forall₂ List.Perm (l.map (fun d => sortBy innerLe d)) l := by
  induction l with
  | nil => exact List.Forall₂.nil
  | cons d ds ih => exact List.Forall₂.cons (perm_sortBy innerLe d) ih

/-- Claim C9 (amended): for every input array of non-empty single-family
groups, `sortApis` returns (in place) a permutation of its input — each
group is itself permuted, nothing added, removed or modified — in which the
groups are ordered nondecreasingly by family name and, within each group,
the APIs are ordered nondecreasingly by `config.name`.  The non-emptiness
proviso is forced by `sortApis_empty_family_counterexample`: the outer
comparator reads `a[0].family`, which throws on an empty group. -/
theorem sortApis_sorted_permutation (apis : List (List ApiInfo))
    (hne : ∀ d ∈ apis, d ≠ [])
    (hhom : ∀ d ∈ apis, ∀ x ∈ d, ∀ y ∈ d, x.family = y.family) :
    ∃ out, sortApis apis = .ok out ∧
      List.Forall₂ List.Perm out (sortBy outerLe apis) ∧
      List.Perm (sortBy outerLe apis) apis ∧
      List.Pairwise (fun g h => outerLe g h = true) out ∧
      ∀ d ∈ out, List.Pairwise (fun a b => innerLe a b = true) d := by
  have hguard : ¬(2 ≤ apis.length ∧ apis.any (·.isEmpty) = true) := by
    rintro ⟨-, hany⟩
    rcases List.any_eq_true.mp hany with ⟨d, hd, hemp⟩
    exact hne d hd (List.isEmpty_iff.mp hemp)
  refine ⟨(sortBy outerLe apis).map (fun d => sortBy innerLe d), ?_,
    forall2_perm_inner_map _, perm_sortBy _ _, ?_, ?_⟩
  · simp only [sortApis]
    rw [if_neg hguard]
  · have hmid : (sortBy outerLe apis).Pairwise (fun g h => outerLe g h = true) :=
      pairwise_sortBy outerLe outerLe_total outerLe_trans apis
    rw [List.pairwise_map]
    refine hmid.imp_of_mem ?_
    intro g h hg hh hle
    have hgd : g ∈ apis := (perm_sortBy outerLe apis).mem_iff.mp hg
    have hhd : h ∈ apis := (perm_sortBy outerLe apis).mem_iff.mp hh
    have kg := keyOfGroup_sortBy_inner g (hne g hgd) (hhom g hgd)
    have kh := keyOfGroup_sortBy_inner h (hne h hhd) (hhom h hhd)
    simp only [outerLe, kg, kh] at hle ⊢
    exact hle
  · intro d hd
    rcases List.mem_map.mp hd with ⟨g, hg, rfl⟩
    exact pairwise_sortBy innerLe innerLe_total innerLe_trans g

/-- Claim C9, counterexample to the claim as stated: on an input containing
empty family groups the outer comparator dereferences `a[0].family` of
`undefined` and the call throws instead of returning a permutation. -/
theorem sortApis_empty_family_counterexample :
    sortApis [[], []] = .error "TypeError: Cannot read property of undefined" := rfl

/-- Witness for `sortApis_sorted_permutation` at a concrete input. -/
theorem sortApis_sorted_permutation_witness :
    (∀ d ∈ apisW, d ≠ []) ∧
    (∀ d ∈ apisW, ∀ x ∈ d, ∀ y ∈ d, x.family = y.family) ∧
    (∃ out, sortApis apisW = .ok out ∧
      List.Forall₂ List.Perm out (sortBy outerLe apisW) ∧
      List.Perm (sortBy outerLe apisW) apisW ∧
      List.Pairwise (fun g h => outerLe g h = true) out ∧
      ∀ d ∈ out, List.Pairwise (fun a b => innerLe a b = true) d) :=
  ⟨by decide, by decide, sortApis_sorted_permutation apisW (by decide) (by decide)⟩

/-! ### Claim C10: the generated parameter split (object lemmas, then the claim) -/

theorem hasKey_iff (o : JsObj) (k : String) : JsObj.hasKey o k = true ↔ k ∈ objKeys o := by
  simp only [JsObj.hasKey, objKeys, List.any_eq_true, List.mem_map, decide_eq_true_eq]

theorem objKeys_set (o : JsObj) (k : String) (v : JsVal) :
    objKeys (JsObj.set o k v) =
      if JsObj.hasKey o k then objKeys o else objKeys o ++ [k] := by
  unfold JsObj.set
  by_cases h : o.hasKey k = true
  · simp only [h, if_true, objKeys, List.map_map]
    apply List.map_congr_left
    intro p _
    by_cases hp : p.1 = k <;> simp [hp]
  · simp [h, objKeys]

theorem mem_objKeys_set (o : JsObj) (k : String) (v : JsVal) (a : String) :
    a ∈ objKeys (JsObj.set o k v) ↔ a ∈ objKeys o ∨ a = k := by
  rw [objKeys_set]
  by_cases h : o.hasKey k = true
  · simp only [h, if_true]
    constructor
    · exact Or.inl
    · rintro (ha | rfl)
      · exact ha
      · exact (hasKey_iff o a).mp h
  · simp [h]

theorem read_map_update (o : JsObj) (k a : String) (v : JsVal) (hne : a ≠ k) :
    JsObj.read (o.map (fun p => if p.1 = k then (k, v) else p)) a = JsObj.read o a := by
  induction o with
  | nil => rfl
  | cons p ps ih =>
    by_cases hp : p.1 = k
    · simp only [List.map, JsObj.read, List.find?, hp, if_true]
      have h1 : decide ((k : String) = a) = false := by
        simp [Ne.symm hne]
      have h2 : decide (p.1 = a) = false := by
        simp [hp, Ne.symm hne]
      simp only [h1, h2]
      exact ih
    · simp only [List.map, JsObj.read, List.find?, hp, if_false]
      by_cases ha : p.1 = a
      · simp [ha]
      · simp only [decide_eq_false ha, Bool.false_eq_true]
        exact ih

theorem read_set_ne (o : JsObj) (k a : String) (v : JsVal) (hne : a ≠ k) :
    JsObj.read (JsObj.set o k v) a = JsObj.read o a := by
  unfold JsObj.set
  by_cases h : o.hasKey k = true
  · simp only [h, if_true]
    exact read_map_update o k a v hne
  · simp only [h, Bool.false_eq_true, if_false]
    unfold JsObj.read
    rw [List.find?_append]
    have : List.find? (fun p => decide (p.1 = a)) [(k, v)] = none := by
      simp [Ne.symm hne]
    cases hfo : List.find? (fun p => decide (p.1 = a)) o <;> simp [hfo, this]

theorem foldl_common_read_notin (cfg params : JsObj) (a : String) :
    ∀ (l : List (String × Bool)) (qp : JsObj),
      a ∉ (l.filter (·.2)).map (·.1) →
      JsObj.read (l.foldl (commonQueryStep cfg params) qp) a = JsObj.read qp a
  | [], qp, _ => rfl
  | q :: l, qp, h => by
    by_cases hq : q.2 = true
    · have hmem : a ∉ (l.filter (·.2)).map (·.1) ∧ a ≠ q.1 := by
        constructor
        · intro hx
          exact h (by simp [List.filter, hq, hx])
        · intro hx
          exact h (by simp [List.filter, hq, hx])
      rw [List.foldl_cons]
      rw [foldl_common_read_notin cfg params a l _ hmem.1]
      simp only [commonQueryStep, hq, if_true]
      exact read_set_ne _ _ _ _ hmem.2
    · have hmem : a ∉ (l.filter (·.2)).map (·.1) := by
        intro hx
        refine h ?_
        simp only [List.filter, Bool.of_not_eq_true hq]
        exact hx
      rw [List.foldl_cons]
      rw [foldl_common_read_notin cfg params a l _ hmem]
      simp [commonQueryStep, hq]

theorem foldl_common_keys_mono (cfg params : JsObj) (a : String) :
    ∀ (l : List (String × Bool)) (qp : JsObj),
      a ∈ objKeys qp → a ∈ objKeys (l.foldl (commonQueryStep cfg params) qp)
  | [], _, h => h
  | q :: l, qp, h => by
    rw [List.foldl_cons]
    refine foldl_common_keys_mono cfg params a l _ ?_
    by_cases hq : q.2 = true
    · simp only [commonQueryStep, hq, if_true]
      exact (mem_objKeys_set _ _ _ _).mpr (Or.inl h)
    · simpa [commonQueryStep, hq] using h

theorem foldl_common_keys_common (cfg params : JsObj) (a : String) :
    ∀ (l : List (String × Bool)) (qp : JsObj),
      a ∈ (l.filter (·.2)).map (·.1) →
      a ∈ objKeys (l.foldl (commonQueryStep cfg params) qp)
  | [], _, h => by simp at h
  | q :: l, qp, h => by
    rw [List.foldl_cons]
    by_cases hq : q.2 = true
    · by_cases ha : a = q.1
      · refine foldl_common_keys_mono cfg params a l _ ?_
        simp only [commonQueryStep, hq, if_true]
        exact (mem_objKeys_set _ _ _ _).mpr (Or.inr ha)
      · refine foldl_common_keys_common cfg params a l _ ?_
        rcases (by simpa [List.filter, hq] using h : a = q.1 ∨ a ∈ (l.filter (·.2)).map (·.1)) with h' | h'
        · exact absurd h' ha
        · exact h'
    · refine foldl_common_keys_common cfg params a l _ ?_
      simpa [List.filter, Bool.of_not_eq_true hq] using h

theorem foldl_common_keys_bound (cfg params : JsObj) (a : String) :
    ∀ (l : List (String × Bool)) (qp : JsObj),
      a ∈ objKeys (l.foldl (commonQueryStep cfg params) qp) →
      a ∈ objKeys qp ∨ a ∈ (l.filter (·.2)).map (·.1)
  | [], _, h => Or.inl h
  | q :: l, qp, h => by
    rw [List.foldl_cons] at h
    rcases foldl_common_keys_bound cfg params a l _ h with h' | h'
    · by_cases hq : q.2 = true
      · rcases (mem_objKeys_set _ _ _ _).mp (by simpa [commonQueryStep, hq] using h') with h'' | h''
        · exact Or.inl h''
        · exact Or.inr (by simp [List.filter, hq, h''])
      · exact Or.inl (by simpa [commonQueryStep, hq] using h')
    · by_cases hq : q.2 = true
      · exact Or.inr (by simp [List.filter, hq, h'])
      · exact Or.inr (by simpa [List.filter, Bool.of_not_eq_true hq] using h')

theorem not_mem_of_mem_objKeys_omit (o : JsObj) (ks : List String) (a : String)
    (h : a ∈ objKeys (omitKeys o ks)) : a ∉ ks := by
  rcases List.mem_map.mp h with ⟨p, hp, rfl⟩
  have hpred := (List.mem_filter.mp hp).2
  simpa using hpred

theorem mem_objKeys_omit_of_mem (o : JsObj) (ks : List String) (k : String) (v : JsVal)
    (hkv : (k, v) ∈ o) (hk : k ∉ ks) : k ∈ objKeys (omitKeys o ks) := by
  refine List.mem_map.mpr ⟨(k, v), ?_, rfl⟩
  exact List.mem_filter.mpr ⟨hkv, by simpa using hk⟩

/-- Claim C10 (amended): in every generated operation method, the
`pathParameters` object carries exactly the endpoint's path-parameter keys;
the `queryParameters` object dispatched to `StaticClient` is the
caller-supplied parameters object with all path-parameter keys removed,
except that every endpoint common query parameter key is additionally
present (assigned by the client-config fallback loop); at every non-common
key its value is exactly that of the omitted object.  Consequently the key
sets of `pathParameters` and `queryParameters` are disjoint (given that no
common query parameter shares a name with a path parameter, which
`_.omit` otherwise cannot guarantee), and no caller-supplied key is dropped
from both.  The common-query exception is forced by
`genQueryParameters_counterexample`. -/
theorem genQueryParameters_spec (ep : Endpoint) (cfg params : JsObj)
    (hsep : ∀ q ∈ ep.queryParams, q.2 = true → q.1 ∉ pathKeys ep) :
    objKeys (genPathParameters ep cfg params) = pathKeys ep ∧
    (∀ k, k ∈ objKeys (genPathParameters ep cfg params) →
        k ∉ objKeys (genQueryParameters ep cfg params)) ∧
    (∀ k v, (k, v) ∈ params →
        k ∈ pathKeys ep ∨ k ∈ objKeys (genQueryParameters ep cfg params)) ∧
    (∀ k, k ∉ commonQueryNames ep →
        JsObj.read (genQueryParameters ep cfg params) k =
          JsObj.read (omitKeys params (pathKeys ep)) k) ∧
    (∀ k, k ∈ commonQueryNames ep → k ∈ objKeys (genQueryParameters ep cfg params)) ∧
    (∀ k, k ∈ objKeys (genQueryParameters ep cfg params) →
        k ∈ objKeys (omitKeys params (pathKeys ep)) ∨ k ∈ commonQueryNames ep) := by
  have hpathkeys : objKeys (genPathParameters ep cfg params) = pathKeys ep := by
    simp [genPathParameters, objKeys, pathKeys, List.map_map, Function.comp]
  refine ⟨hpathkeys, ?_, ?_, ?_, ?_, ?_⟩
  · intro k hk hmem
    rw [hpathkeys] at hk
    rcases foldl_common_keys_bound cfg params k ep.queryParams _ hmem with h' | h'
    · exact not_mem_of_mem_objKeys_omit params (pathKeys ep) k h' hk
    · rcases List.mem_map.mp h' with ⟨q, hq, rfl⟩
      have hqm := List.mem_filter.mp hq
      exact hsep q hqm.1 (by simpa using hqm.2) hk
  · intro k v hkv
    by_cases hk : k ∈ pathKeys ep
    · exact Or.inl hk
    · exact Or.inr (foldl_common_keys_mono cfg params k ep.queryParams _
        (mem_objKeys_omit_of_mem params (pathKeys ep) k v hkv hk))
  · intro k hk
    exact foldl_common_read_notin cfg params k ep.queryParams _ hk
  · intro k hk
    exact foldl_common_keys_common cfg params k ep.queryParams _ hk
  · intro k hk
    exact foldl_common_keys_bound cfg params k ep.queryParams _ hk

/-- Claim C10, counterexample to the claim as stated: for an endpoint with a
common query parameter (`siteId`) and an empty caller parameters object, the
dispatched `queryParameters` is not `_.omit(parameters, pathKeys)` — the
fallback loop adds `siteId` from the client configuration. -/
theorem genQueryParameters_counterexample :
    genQueryParameters epC10 cfgC10 [] = [("siteId", JsVal.str "site1")] ∧
    omitKeys ([] : JsObj) (pathKeys epC10) = [] ∧
    genQueryParameters epC10 cfgC10 [] ≠ omitKeys [] (pathKeys epC10) :=
  ⟨rfl, rfl, by decide⟩

/-- Witness for `genQueryParameters_spec` at a concrete input. -/
theorem genQueryParameters_spec_witness :
    (∀ q ∈ epC10.queryParams, q.2 = true → q.1 ∉ pathKeys epC10) ∧
    (objKeys (genPathParameters epC10 cfgC10 paramsC10) = pathKeys epC10 ∧
     (∀ k, k ∈ objKeys (genPathParameters epC10 cfgC10 paramsC10) →
         k ∉ objKeys (genQueryParameters epC10 cfgC10 paramsC10)) ∧
     (∀ k v, (k, v) ∈ paramsC10 →
         k ∈ pathKeys epC10 ∨ k ∈ objKeys (genQueryParameters epC10 cfgC10 paramsC10)) ∧
     (∀ k, k ∉ commonQueryNames epC10 →
         JsObj.read (genQueryParameters epC10 cfgC10 paramsC10) k =
           JsObj.read (omitKeys paramsC10 (pathKeys epC10)) k) ∧
     (∀ k, k ∈ commonQueryNames epC10 →
         k ∈ objKeys (genQueryParameters epC10 cfgC10 paramsC10)) ∧
     (∀ k, k ∈ objKeys (genQueryParameters epC10 cfgC10 paramsC10) →
         k ∈ objKeys (omitKeys paramsC10 (pathKeys epC10)) ∨ k ∈ commonQueryNames epC10)) :=
  ⟨by decide, genQueryParameters_spec epC10 cfgC10 paramsC10 (by decide)⟩
